import Mathlib

/-!
Shallow embedding of the MISTRAL-VISUALIZER mmWave pipeline
(`src/OLD FILES/collector.py`, `src/NEW FILES/collecter.py`,
`src/NEW FILES/detection.py`) together with theorems settling the
frozen claims about frame synchronization, TLV decoding, the ingest
queue, the collector lifecycle and the classifier.

Bytes are modelled as `Nat` (each byte `< 256` where it matters), byte
strings as `List Nat`.  Machine `u32` fields are read little-endian.
IEEE-754 `float32` point coordinates are carried as their raw 32-bit
patterns: the claims under study compare detections for byte-for-byte
equality, and the float interpretation is a fixed injective function of
the bit pattern, so no floating-point arithmetic is needed.  The
`rng`/timestamp fields of a detection are deterministic functions of the
other fields (and of the wall clock) and are omitted from the record.
-/

namespace MMW

/-- The fixed 8-byte sync marker `b'\x02\x01\x04\x03\x06\x05\x08\x07'`
(`MAGIC_WORD` in both collector variants). -/
def MAGIC_WORD : List Nat := [2, 1, 4, 3, 6, 5, 8, 7]

/-- Size of a TLV header (`TLV_HEADER_SIZE` in `collecter.py`): a `u32`
type followed by a `u32` length. -/
def TLV_HEADER_SIZE : Nat := 8

/-- Little-endian `u32` read at byte offset `i`, `none` when fewer than
four bytes are available there — this models `struct.unpack_from('<I',
data, i)`, whose failure raises `struct.error`. -/
def readU32 (d : List Nat) (i : Nat) : Option Nat :=
  match d[i]?, d[i+1]?, d[i+2]?, d[i+3]? with
  | some b0, some b1, some b2, some b3 => some (b0 + 256 * (b1 + 256 * (b2 + 256 * b3)))
  | _, _, _, _ => none

/-- Total variant of `readU32` for call sites that the source guards by
an explicit length check (so the read cannot fail there). -/
def u32 (d : List Nat) (i : Nat) : Nat := (readU32 d i).getD 0

/-- Little-endian signed `int16` read at byte offset `i`, modelling
`struct.unpack('<h', ...)`; call sites are length-guarded. -/
def i16 (d : List Nat) (i : Nat) : Int :=
  let v := d.getD i 0 + 256 * d.getD (i+1) 0
  if v < 32768 then (v : Int) else (v : Int) - 65536

/-- Index of the first occurrence of `MAGIC_WORD`, modelling
`bytearray.find(MAGIC_WORD)` (`none` stands for the `-1` result). -/
def findMagic : List Nat → Option Nat
  | [] => none
  | a :: t =>
    if MAGIC_WORD.isPrefixOf (a :: t) then some 0
    else (findMagic t).map (· + 1)

/-! ### Ingest queue (claim C5)

`queue.Queue(maxsize=queue_max)` holding decoded detections; default
`queue_max = 20000` in both collector variants.  A `maxsize ≤ 0` Python
queue is unbounded, hence the `cap = 0` cases below.  The NEW collector
(`collecter.py`) enqueues with `if not self._data_q.full():
put_nowait(o)` — drop the newest arrival when full.  The OLD collector
(`collector.py`) enqueues with `put_nowait` and, on `queue.Full`,
`get_nowait()` (evict oldest; a `queue.Empty` from that is passed) then
`put_nowait` again — sliding window. -/

/-- Default `queue_max` of `SerialCollector.__init__` in both variants. -/
def queueMaxDefault : Nat := 20000

/-- NEW collector overflow handling: enqueue only when not full. -/
def putIfNotFull (cap : Nat) (q : List α) (a : α) : List α :=
  if cap = 0 ∨ q.length < cap then q ++ [a] else q

/-- OLD collector overflow handling: on a full queue remove the oldest
item, then enqueue the new one (the empty-queue race is a no-op). -/
def putEvictOldest (cap : Nat) (q : List α) (a : α) : List α :=
  if cap = 0 ∨ q.length < cap then q ++ [a]
  else
    match q with
    | [] => []
    | _ :: t => t ++ [a]

/-! ### Collector lifecycle (claims C8 and C10)

State machine abstraction of `SerialCollector` in `collecter.py`
(NEW variant, the one the two claims cite): `_thread`
(`none`/spawned × alive), `_ser_data` (`none`/open), `_stop_event`, plus
cumulative counters of serial opens, thread spawns and serial closes so
that "opens no second resource / spawns no second reader" is visible in
the model. -/

structure CollectorState where
  hasThread : Bool
  threadAlive : Bool
  hasSer : Bool
  serOpen : Bool
  stopEventSet : Bool
  openCount : Nat
  threadCount : Nat
  closeCount : Nat
  deriving DecidableEq, Repr

/-- Freshly constructed collector (`__init__`): no thread, no serial
object, stop event cleared. -/
def initCollector : CollectorState :=
  { hasThread := false, threadAlive := false, hasSer := false, serOpen := false,
    stopEventSet := false, openCount := 0, threadCount := 0, closeCount := 0 }

/-- Model of `SerialCollector.running`:
`self._thread is not None and self._thread.is_alive()`. -/
def runningC (s : CollectorState) : Bool := s.hasThread && s.threadAlive

/-- Result of `start()`: the collector state afterwards, and whether a
`SerialReadError` was raised (in which case the fields are unchanged,
since the failing `serial.Serial(...)` never assigns `_ser_data`). -/
structure StartResult where
  state : CollectorState
  raised : Bool
  deriving DecidableEq, Repr

/-- Model of `SerialCollector.start` (`collecter.py`): if already
running, log and return; otherwise open the data serial (parameter
`openOk` says whether `serial.Serial` succeeds), clear the stop event
and spawn the reader thread. -/
def startC (openOk : Bool) (s : CollectorState) : StartResult :=
  if runningC s = true then ⟨s, false⟩
  else if openOk then
    ⟨{ hasThread := true, threadAlive := true, hasSer := true, serOpen := true,
       stopEventSet := false, openCount := s.openCount + 1,
       threadCount := s.threadCount + 1, closeCount := s.closeCount }, false⟩
  else ⟨s, true⟩

/-- Model of `SerialCollector.stop` (`collecter.py`): set the stop
event; join the thread when one exists (no field effect); close the
data serial when present and open.  Every guard is a plain attribute
test, so the Python method cannot raise — the model is a total
function. -/
def stopC (s : CollectorState) : CollectorState :=
  let s1 := { s with stopEventSet := true }
  if s1.hasSer && s1.serOpen then
    { s1 with serOpen := false, closeCount := s1.closeCount + 1 }
  else s1

/-! ### Packet decoder of the NEW collector (`collecter.py`, claims C6, C7)

`SerialCollector._parse_packet(data, header_len)` reads the
detected-object count (offset 28) and TLV count (offset 32) from the
frame header — `struct.unpack_from` raises `struct.error` when the
frame is shorter than 36 bytes, modelled by the `Except` result — and
then iterates at most `num_tlvs` TLV records starting at
`offset = header_len`, breaking out as soon as a TLV header or payload
would extend past the end of the frame.  Type-1 payloads yield up to
`num_detected_obj` 16-byte `<ffff>` quadruples (kept as raw little-
endian 32-bit patterns), type-7 payloads up to `num_detected_obj`
4-byte `<hh>` pairs whose first `int16` is the raw SNR (the source
scales it by 0.1 when storing; the raw value determines it).  Points
and side info are paired positionally, missing side info defaulting
to 0. -/

/-- One detected point: raw `float32` bit patterns of `x, y, z,
velocity` plus the raw `int16` SNR.  `rng` and `timestamp` are
deterministic functions of these fields (and the wall clock) and are
not modelled. -/
structure MovingObject where
  x : Nat
  y : Nat
  z : Nat
  velocity : Nat
  snrRaw : Int
  deriving DecidableEq, Repr

/-- Decode up to `n` 16-byte point quadruples from a type-1 TLV
payload, stopping early when fewer than 16 bytes remain. -/
def decodePoints : Nat → List Nat → List (Nat × Nat × Nat × Nat)
  | 0, _ => []
  | n + 1, d =>
    if d.length < 16 then []
    else (u32 d 0, u32 d 4, u32 d 8, u32 d 12) :: decodePoints n (d.drop 16)

/-- Decode up to `n` raw SNR values from a type-7 TLV payload (4-byte
`<hh>` pairs, the second `int16` is discarded), stopping early when
fewer than 4 bytes remain. -/
def decodeSide : Nat → List Nat → List Int
  | 0, _ => []
  | n + 1, d =>
    if d.length < 4 then []
    else i16 d 0 :: decodeSide n (d.drop 4)

/-- Positional pairing of points with side info, missing side info
defaulting to raw SNR 0 (`side_info[i] if i < len(side_info) else 0`). -/
def assemble : List (Nat × Nat × Nat × Nat) → List Int → List MovingObject
  | [], _ => []
  | q :: qs, [] => ⟨q.1, q.2.1, q.2.2.1, q.2.2.2, 0⟩ :: assemble qs []
  | q :: qs, s :: ss => ⟨q.1, q.2.1, q.2.2.1, q.2.2.2, s⟩ :: assemble qs ss

/-- The TLV iteration of `_parse_packet`: at most `k` further records,
current absolute `offset` into `data`, accumulated points and side
info.  Both length guards mirror the source's `break` conditions; every
read below them is in bounds, so the total `u32` is exact there. -/
def parseTLVs (data : List Nat) (nd : Nat) :
    Nat → Nat → List (Nat × Nat × Nat × Nat) → List Int →
    List (Nat × Nat × Nat × Nat) × List Int
  | 0, _, pts, si => (pts, si)
  | k + 1, offset, pts, si =>
    if data.length < offset + TLV_HEADER_SIZE then (pts, si)
    else
      let ty := u32 data offset
      let ln := u32 data (offset + 4)
      if data.length < offset + TLV_HEADER_SIZE + ln then (pts, si)
      else
        let td := (data.drop (offset + TLV_HEADER_SIZE)).take ln
        if ty = 1 then
          parseTLVs data nd k (offset + TLV_HEADER_SIZE + ln) (pts ++ decodePoints nd td) si
        else if ty = 7 then
          parseTLVs data nd k (offset + TLV_HEADER_SIZE + ln) pts (si ++ decodeSide nd td)
        else
          parseTLVs data nd k (offset + TLV_HEADER_SIZE + ln) pts si

/-- Detections produced by `_parse_packet` once the header reads have
succeeded. -/
def parsePacketCore (data : List Nat) (header_len : Nat) : List MovingObject :=
  assemble (parseTLVs data (u32 data 28) (u32 data 32) header_len [] []).1
    (parseTLVs data (u32 data 28) (u32 data 32) header_len [] []).2

/-- Model of `SerialCollector._parse_packet` of `collecter.py`; the
`error` case is the `struct.error` escaping from the two header reads
on a frame shorter than 36 bytes. -/
def parsePacketNew (data : List Nat) (header_len : Nat) : Except Unit (List MovingObject) :=
  if data.length < 36 then Except.error ()
  else Except.ok (parsePacketCore data header_len)

/-! ### Well-formed TLV streams (statement vocabulary for claim C6)

To state that the decoder keeps everything decoded from the well-formed
TLV prefix of a frame, frames are built from explicit TLV records: a
record encodes as `u32 type ++ u32 length ++ payload`, and the
reference decode folds the decoder's own per-record action over the
record list. -/

structure TLVRec where
  ty : Nat
  payload : List Nat
  deriving DecidableEq, Repr

/-- Little-endian `u32` encoding (the inverse of `readU32` for values
below `2^32`). -/
def encodeU32 (n : Nat) : List Nat :=
  [n % 256, n / 256 % 256, n / 65536 % 256, n / 16777216 % 256]

def encodeTLV (t : TLVRec) : List Nat :=
  encodeU32 t.ty ++ encodeU32 t.payload.length ++ t.payload

def encodeTLVs (ts : List TLVRec) : List Nat := (ts.map encodeTLV).flatten

/-- The decoder's action on one complete TLV record (the loop body of
`_parse_packet` on an in-bounds record). -/
def tlvStep (nd : Nat) (acc : List (Nat × Nat × Nat × Nat) × List Int) (t : TLVRec) :
    List (Nat × Nat × Nat × Nat) × List Int :=
  if t.ty = 1 then (acc.1 ++ decodePoints nd t.payload, acc.2)
  else if t.ty = 7 then (acc.1, acc.2 ++ decodeSide nd t.payload)
  else acc

/-- Reference decode of a list of complete TLV records. -/
def decodeTLVRecs (nd : Nat) (ts : List TLVRec) :
    List (Nat × Nat × Nat × Nat) × List Int :=
  ts.foldl (tlvStep nd) ([], [])

/-- The record's two header fields fit in a `u32`. -/
abbrev TLVEncodable (t : TLVRec) : Prop :=
  t.ty < 4294967296 ∧ t.payload.length < 4294967296

/-- The trailing bytes cut the next TLV short: either no room for a TLV
header, or the declared payload overruns the remaining bytes.  (When
fewer than 8 bytes remain, `u32 junk 4` is the guarded default 0 and the
condition reduces to `junk.length < 8`.) -/
abbrev TruncatedTail (junk : List Nat) : Prop :=
  junk.length < TLV_HEADER_SIZE + u32 junk 4

/-- Witness frame header for C6: 28 filler bytes, then object count 1
at offset 28 and TLV count 2 at offset 32. -/
def c6pre : List Nat := List.replicate 28 0 ++ [1, 0, 0, 0] ++ [2, 0, 0, 0]

/-- Witness TLV list for C6: one complete type-1 record with a single
16-byte point. -/
def c6ts : List TLVRec :=
  [⟨1, [0, 0, 128, 63, 0, 0, 0, 64, 0, 0, 64, 64, 0, 0, 0, 0]⟩]

/-- Witness truncating tail for C6: a type-7 TLV header declaring 100
payload bytes with none present. -/
def c6junk : List Nat := [7, 0, 0, 0, 100, 0, 0, 0]

/-! ### Frame sync of the NEW collector (`collecter.py`, claim C7)

`_process_buffer` loops: find the marker (drop leading noise before
it), read `header_len` at offset 8 and `total_packet_len` at offset 12
(`struct.error` → break, i.e. wait for more bytes), wait until the
buffer holds `total_packet_len` bytes, then slice the packet off and
parse it.  There is no length sanity check and no noise-cap trim in
this variant.  An exception escaping `_parse_packet` aborts the loop
(caught by `_read_loop`'s generic handler), with the packet already
removed from the buffer; that is the `error` branch below.  The result
pairs the remaining buffer with the detections decoded this call (the
queue is modelled separately, claim C5).  The `while True` loop is
modelled with fuel: each recursive step removes at least one byte from
the buffer, so `length + 1` steps always suffice and the wrapper
`processBufferNew` supplies exactly that. -/

def processBufferNewGo : Nat → List Nat → List Nat × List MovingObject
  | 0, buf => (buf, [])
  | fuel + 1, buf =>
    match findMagic buf with
    | none => (buf, [])
    | some idx =>
      let b := buf.drop idx
      match readU32 b 8, readU32 b 12 with
      | some header_len, some total =>
        if b.length < total then (b, [])
        else
          match parsePacketNew (b.take total) header_len with
          | Except.ok objs =>
            let r := processBufferNewGo fuel (b.drop total)
            (r.1, objs ++ r.2)
          | Except.error _ => (b.drop total, [])
      | _, _ => (b, [])

/-- `SerialCollector._process_buffer` of `collecter.py`. -/
def processBufferNew (buf : List Nat) : List Nat × List MovingObject :=
  processBufferNewGo (buf.length + 1) buf

/-- `_read_loop` feeding: extend the buffer with each received chunk and
run `_process_buffer`, collecting the decoded detections in order. -/
def runChunksNew : List (List Nat) → List Nat → List Nat × List MovingObject
  | [], buf => (buf, [])
  | c :: cs, buf =>
    let r1 := processBufferNew (buf ++ c)
    let r2 := runChunksNew cs r1.1
    (r2.1, r1.2 ++ r2.2)

/-! ### Frame sync of the OLD collector (`collector.py`, claims C1-C3)

`_process_buffer` of `src/OLD FILES/collector.py` (the module
`app.py` imports) loops: find the marker — when absent, trim the buffer
to its last `len(MAGIC_WORD) * 2 = 16` bytes once it exceeds `2 * 1024`
bytes, then break; drop bytes before the marker; break when fewer than
40 bytes (minimum header) remain, which also makes the
`struct.error` branch of the `total_packet_len` read unreachable (the
read needs only 16 bytes); drop just the 8-byte marker and rescan when
`total_packet_len <= 0 or total_packet_len > 65536` (the field is an
unsigned `u32`, so `<= 0` is `= 0`); break while the buffer is shorter
than `total_packet_len`; otherwise slice off exactly that many bytes as
a packet.  Claims C1—C3 are about this sync stage, so the model returns
the extracted packets as raw byte lists (the subsequent
`_parse_packet`/queue stages are modelled separately).  The `while
True` loop consumes at least one byte per iteration, so `length + 1`
fuel always suffices and `processBufferOld` supplies exactly that;
`processBufferOldGo_fuel` shows any sufficient fuel gives the same
result. -/

def processBufferOldGo : Nat → List Nat → List Nat × List (List Nat)
  | 0, buf => (buf, [])
  | fuel + 1, buf =>
    match findMagic buf with
    | none => (if 2048 < buf.length then buf.drop (buf.length - 16) else buf, [])
    | some idx =>
      if (buf.drop idx).length < 40 then (buf.drop idx, [])
      else if u32 (buf.drop idx) 12 = 0 ∨ 65536 < u32 (buf.drop idx) 12 then
        processBufferOldGo fuel ((buf.drop idx).drop 8)
      else if (buf.drop idx).length < u32 (buf.drop idx) 12 then (buf.drop idx, [])
      else
        ((processBufferOldGo fuel ((buf.drop idx).drop (u32 (buf.drop idx) 12))).1,
          (buf.drop idx).take (u32 (buf.drop idx) 12) ::
            (processBufferOldGo fuel ((buf.drop idx).drop (u32 (buf.drop idx) 12))).2)

/-- `SerialCollector._process_buffer` of `collector.py`. -/
def processBufferOld (buf : List Nat) : List Nat × List (List Nat) :=
  processBufferOldGo (buf.length + 1) buf

/-- `_read_loop` feeding for the OLD collector: extend the buffer with
each chunk, then `_process_buffer`; the extracted packets are collected
in order. -/
def runChunksOld : List (List Nat) → List Nat → List Nat × List (List Nat)
  | [], buf => (buf, [])
  | c :: cs, buf =>
    ((runChunksOld cs (processBufferOld (buf ++ c)).1).1,
      (processBufferOld (buf ++ c)).2 ++ (runChunksOld cs (processBufferOld (buf ++ c)).1).2)

/-- A valid frame for the OLD sync stage: starts with the marker, its
total-length field equals its byte length, within the 40-byte minimum
header and the 64 KiB sanity bound. -/
abbrev ValidFrameOld (f : List Nat) : Prop :=
  MAGIC_WORD <+: f ∧ readU32 f 12 = some f.length ∧ 40 ≤ f.length ∧ f.length ≤ 65536

/-! ### Claim C1 -/

/-- Concrete buffer refuting claim C1 as stated: header-length field 40
at offset 8, total-length field 20 at offset 12. -/
def c1cbuf : List Nat := MAGIC_WORD ++ [40, 0, 0, 0] ++ [20, 0, 0, 0] ++ List.replicate 24 0

/-- Witness buffer for C1: total-length field 0. -/
def c1wbuf : List Nat := MAGIC_WORD ++ [40, 0, 0, 0] ++ [0, 0, 0, 0] ++ List.replicate 24 0

/-- Witness chunk list for C2: 2100 marker-free bytes. -/
def c2chunks : List (List Nat) := [List.replicate 2100 9]

/-- Witness oversized marker-free buffer for C2. -/
def c2big : List Nat := List.replicate 2100 7

/-! ### Claim C3 -/

/-- A stream of `(noise, frame)` segments followed by a tail. -/
def interleave : List (List Nat × List Nat) → List Nat → List Nat
  | [], tail => tail
  | p :: ps, tail => p.1 ++ (p.2 ++ interleave ps tail)

/-- The marker occurs only where the frames start: at every stage the
first marker occurrence in the remaining stream is exactly at the end
of the current noise segment, and the final tail is marker-free. -/
def CleanStream : List (List Nat × List Nat) → List Nat → Prop
  | [], tail => findMagic tail = none
  | p :: ps, tail =>
    findMagic (p.1 ++ (p.2 ++ interleave ps tail)) = some p.1.length ∧ CleanStream ps tail

/-- A valid 40-byte frame for the C3 counterexample. -/
def c3frame : List Nat := MAGIC_WORD ++ [0, 0, 0, 0] ++ [40, 0, 0, 0] ++ List.replicate 24 0

/-- Noise for the C3 counterexample: a spurious marker followed by a
length field of 48 that swallows most of the real frame behind it. -/
def c3noise : List Nat := MAGIC_WORD ++ [0, 0, 0, 0] ++ [48, 0, 0, 0]

/-- First witness frame for C3. -/
def c3fA : List Nat := MAGIC_WORD ++ [0, 0, 0, 0] ++ [40, 0, 0, 0] ++ List.replicate 24 1

/-- Second witness frame for C3. -/
def c3fB : List Nat := MAGIC_WORD ++ [0, 0, 0, 0] ++ [40, 0, 0, 0] ++ List.replicate 24 2

/-- Witness stream for C3: noise, frame A, frame B, trailing noise. -/
def c3ps : List (List Nat × List Nat) := [([9, 9], c3fA), ([], c3fB)]

/-- Witness tail for C3. -/
def c3tail : List Nat := [1, 2, 3]

/-- A valid frame's fields for the NEW sync stage: starts with the
marker, its total-length field equals its byte length, and it is at
least the 40-byte standard header (so `_parse_packet` cannot raise). -/
abbrev ValidFrameNew (f : List Nat) : Prop :=
  MAGIC_WORD <+: f ∧ readU32 f 12 = some f.length ∧ 40 ≤ f.length

/-- Witness frame for C7: 64 bytes, header length 40, one TLV holding
one point. -/
def c7frame : List Nat :=
  MAGIC_WORD ++ [40, 0, 0, 0] ++ [64, 0, 0, 0] ++ List.replicate 12 0 ++
    [1, 0, 0, 0] ++ [1, 0, 0, 0] ++ [0, 0, 0, 0] ++
    [1, 0, 0, 0, 16, 0, 0, 0] ++ [0, 0, 128, 63, 0, 0, 0, 64, 0, 0, 64, 64, 0, 0, 0, 0]

/-! ### Classifier (`detection.py`, claims C4 and C9)

`HumanDetector.process` clusters the batch with `sklearn`'s DBSCAN
(external library code, not part of this repository) and then labels
each non-noise cluster.  The model therefore takes the cluster
assignment as given: a batch row is a point paired with its DBSCAN
cluster id (`-1` = noise).  Coordinates and velocities are exact
rationals standing for the numeric values.  The Python loop labels each
cluster id once through `df.loc[df['cluster_id'] == cid, 'label']`;
since the cluster ids partition the rows, this equals the pointwise
assignment used here.  The four label strings of the source
(`'Human'`, `'Moving'`, `'Static'`, `'Clutter'`) are distinct
constants, modelled by an enumeration. -/

structure DetPoint where
  x : ℚ
  y : ℚ
  z : ℚ
  velocity : ℚ
  deriving DecidableEq, Repr

/-- Tunable parameters of `HumanDetector.__init__`. -/
structure DetectorParams where
  eps : ℚ
  minSamples : Nat
  minPointsHuman : Nat
  maxHumanWidth : ℚ
  minHumanHeight : ℚ
  maxHumanHeight : ℚ
  movementThreshold : ℚ
  deriving DecidableEq, Repr

/-- Defaults of `HumanDetector.__init__` (`eps=0.5, min_samples=5,
min_points_human=10, max_human_width=1.2, min_human_height=0.8,
max_human_height=2.0`, `movement_threshold = 0.1`). -/
def defaultDetector : DetectorParams :=
  { eps := 1/2, minSamples := 5, minPointsHuman := 10, maxHumanWidth := 6/5,
    minHumanHeight := 4/5, maxHumanHeight := 2, movementThreshold := 1/10 }

inductive Label where
  | Human
  | Moving
  | Static
  | Clutter
  deriving DecidableEq, Repr

/-- Columnwise minimum (`DataFrame.min()` over a nonempty cluster; the
`[]` default is never reached by `process`, which only forms nonempty
clusters). -/
def minD : List ℚ → ℚ
  | [] => 0
  | a :: t => t.foldl min a

/-- Columnwise maximum, as `minD`. -/
def maxD : List ℚ → ℚ
  | [] => 0
  | a :: t => t.foldl max a

/-- The cluster's x-extent `max_coords.x - min_coords.x`. -/
def widthX (c : List DetPoint) : ℚ := maxD (c.map (·.x)) - minD (c.map (·.x))

/-- The cluster's y-extent. -/
def widthY (c : List DetPoint) : ℚ := maxD (c.map (·.y)) - minD (c.map (·.y))

/-- The cluster's z-extent, `height` in `_is_human_cluster`. -/
def heightOf (c : List DetPoint) : ℚ := maxD (c.map (·.z)) - minD (c.map (·.z))

/-- Square of `horizontal_spread = sqrt(width_x**2 + width_y**2)`.  The
source compares `horizontal_spread > max_human_width`; over the reals
`sqrt s > w ↔ (w < 0 ∨ w² < s)` (see `sqrt_gt_iff_of_nonneg`), which is
how the comparison appears in `isHumanCluster`, keeping the model's
arithmetic exact. -/
def spreadSq (c : List DetPoint) : ℚ := widthX c ^ 2 + widthY c ^ 2

/-- Model of `HumanDetector._is_human_cluster`: size gate, strict
height window, horizontal-spread cap (encoded squared, see
`spreadSq`). -/
def isHumanCluster (p : DetectorParams) (c : List DetPoint) : Bool :=
  if c.length < p.minPointsHuman then false
  else if ¬ (p.minHumanHeight < heightOf c ∧ heightOf c < p.maxHumanHeight) then false
  else if p.maxHumanWidth < 0 ∨ p.maxHumanWidth ^ 2 < spreadSq c then false
  else true

/-- Mean of `cluster_df['velocity'].abs()` (exact rational mean). -/
def avgAbsVel (c : List DetPoint) : ℚ := (c.map (fun q => |q.velocity|)).sum / (c.length : ℚ)

/-- Label assigned to one non-noise cluster by the loop body of
`HumanDetector.process`. -/
def labelOf (p : DetectorParams) (c : List DetPoint) : Label :=
  if isHumanCluster p c then Label.Human
  else if p.movementThreshold < avgAbsVel c then Label.Moving
  else Label.Static

/-- The members of cluster `cid`: `df[df['cluster_id'] == cid]`. -/
def clusterMembers (batch : List (DetPoint × Int)) (cid : Int) : List DetPoint :=
  (batch.filter (fun q => decide (q.2 = cid))).map Prod.fst

/-- Labels of `HumanDetector.process` per batch row, given the DBSCAN
cluster ids carried by the rows: noise rows keep the initial
`'Clutter'`, every other row gets its cluster's label. -/
def processLabels (p : DetectorParams) (batch : List (DetPoint × Int)) : List Label :=
  batch.map (fun q => if q.2 = -1 then Label.Clutter else labelOf p (clusterMembers batch q.2))

/-- Witness batch for C4: two points in cluster 0 with height 2 and no
horizontal spread. -/
def c4batch : List (DetPoint × Int) :=
  [(⟨0, 0, 0, 0⟩, 0), (⟨0, 0, 2, 0⟩, 0)]

/-- Witness parameters for C4. -/
def c4params : DetectorParams :=
  { eps := 1, minSamples := 1, minPointsHuman := 2, maxHumanWidth := 2,
    minHumanHeight := 1, maxHumanHeight := 3, movementThreshold := 1 }

/-! ## Theorems -/
/-! ### Basic lemmas about the byte-level primitives -/

theorem readU32_eq_some (d : List Nat) (i : Nat) (h : i + 4 ≤ d.length) :
    readU32 d i = some (u32 d i) := by
  have h0 : i < d.length := by omega
  have h1 : i + 1 < d.length := by omega
  have h2 : i + 2 < d.length := by omega
  have h3 : i + 3 < d.length := by omega
  simp [readU32, u32, List.getElem?_eq_getElem, h0, h1, h2, h3]

theorem readU32_eq_none (d : List Nat) (i : Nat) (h : d.length < i + 4) :
    readU32 d i = none := by
  have h3 : d[i+3]? = none := by
    rw [List.getElem?_eq_none_iff]; omega
  unfold readU32
  rcases hh0 : d[i]? with _ | b0 <;> rcases hh1 : d[i+1]? with _ | b1 <;>
    rcases hh2 : d[i+2]? with _ | b2 <;> simp [h3]

theorem readU32_isSome_iff (d : List Nat) (i : Nat) :
    (readU32 d i).isSome = true ↔ i + 4 ≤ d.length := by
  constructor
  · intro h
    by_contra hlt
    rw [readU32_eq_none d i (by omega)] at h
    simp at h
  · intro h; rw [readU32_eq_some d i h]; rfl

theorem readU32_append_left (l r : List Nat) (i : Nat) (h : i + 4 ≤ l.length) :
    readU32 (l ++ r) i = readU32 l i := by
  unfold readU32
  rw [List.getElem?_append, List.getElem?_append, List.getElem?_append, List.getElem?_append,
    if_pos (show i < l.length by omega), if_pos (show i + 1 < l.length by omega),
    if_pos (show i + 2 < l.length by omega), if_pos (show i + 3 < l.length by omega)]

theorem readU32_prefix_agree (p f : List Nat) (i : Nat) (hp : p <+: f) (h : i + 4 ≤ p.length) :
    readU32 p i = readU32 f i := by
  obtain ⟨t, rfl⟩ := hp
  exact (readU32_append_left p t i h).symm

theorem readU32_drop (l : List Nat) (k i : Nat) :
    readU32 (l.drop k) i = readU32 l (k + i) := by
  unfold readU32
  rw [List.getElem?_drop, List.getElem?_drop, List.getElem?_drop, List.getElem?_drop]
  ring_nf

theorem u32_append_left (l r : List Nat) (i : Nat) (h : i + 4 ≤ l.length) :
    u32 (l ++ r) i = u32 l i := by
  unfold u32; rw [readU32_append_left l r i h]

theorem u32_drop (l : List Nat) (k i : Nat) :
    u32 (l.drop k) i = u32 l (k + i) := by
  unfold u32; rw [readU32_drop]

theorem findMagic_marker_start (l : List Nat) (h : MAGIC_WORD <+: l) :
    findMagic l = some 0 := by
  match l with
  | [] => simp [MAGIC_WORD] at h
  | a :: t =>
    unfold findMagic
    rw [if_pos (List.isPrefixOf_iff_prefix.mpr h)]

theorem findMagic_none_of_short (l : List Nat) (h : l.length < 8) :
    findMagic l = none := by
  match l with
  | [] => rfl
  | a :: t =>
    unfold findMagic
    rw [if_neg, findMagic_none_of_short t (by simpa using Nat.lt_of_succ_lt h)]
    · rfl
    · intro hpre
      have := (List.isPrefixOf_iff_prefix.mp hpre).length_le
      simp [MAGIC_WORD] at this
      simp at h
      omega

/-- Occurrence characterization: `findMagic l = none` exactly when no
suffix of `l` starts with the marker. -/
theorem findMagic_none_iff (l : List Nat) :
    findMagic l = none ↔ ∀ i, ¬ MAGIC_WORD <+: l.drop i := by
  induction l with
  | nil =>
    simp [findMagic, MAGIC_WORD]
  | cons a t ih =>
    constructor
    · intro h i
      unfold findMagic at h
      by_cases hp : MAGIC_WORD.isPrefixOf (a :: t)
      · rw [if_pos hp] at h; exact absurd h (by simp)
      · rw [if_neg hp] at h
        match i with
        | 0 =>
          intro hc
          exact hp (List.isPrefixOf_iff_prefix.mpr (by simpa using hc))
        | i + 1 =>
          have ht : findMagic t = none := by
            rcases hfm : findMagic t with _ | v
            · rfl
            · rw [hfm] at h; simp at h
          simpa using (ih.mp ht) i
    · intro h
      unfold findMagic
      rw [if_neg, (ih.mpr fun i => by simpa using h (i + 1))]
      · rfl
      · intro hpre
        exact (h 0) (by simpa using List.isPrefixOf_iff_prefix.mp hpre)

theorem findMagic_none_within (l m : List Nat) (hinf : l <:+: m)
    (h : findMagic m = none) : findMagic l = none := by
  obtain ⟨s, t, rfl⟩ := hinf
  rw [findMagic_none_iff] at h ⊢
  intro i hc
  apply h (s.length + i)
  obtain ⟨u, hu⟩ := hc
  have hi : i ≤ l.length := by
    by_contra hgt
    rw [List.drop_eq_nil_of_le (by omega)] at hu
    have := congrArg List.length hu
    simp [MAGIC_WORD] at this
  have hstep : (s ++ l ++ t).drop (s.length + i) = l.drop i ++ t := by
    rw [List.append_assoc, List.drop_append_eq_append_drop,
      List.drop_eq_nil_of_le (show s.length ≤ s.length + i by omega),
      List.nil_append,
      show s.length + i - s.length = i by omega,
      List.drop_append_eq_append_drop,
      show i - l.length = 0 by omega,
      List.drop_zero]
  refine ⟨u ++ t, ?_⟩
  rw [hstep, ← hu, List.append_assoc]

/-! ### Claim C5 -/

/-- Claim C5: the ingest queue is bounded at its capacity `N` (default
20000): at a full queue of `N` items, pushing one more detection leaves
exactly `N` items, the NEW collector dropping the arrival and the OLD
collector evicting the oldest item to admit it. -/
theorem c5_queue_bounded (cap : Nat) (q : List Nat) (a : Nat)
    (hcap : 0 < cap) (hfull : q.length = cap) :
    queueMaxDefault = 20000 ∧
    putIfNotFull cap q a = q ∧
    (putIfNotFull cap q a).length = cap ∧
    putEvictOldest cap q a = q.drop 1 ++ [a] ∧
    (putEvictOldest cap q a).length = cap := by
  have hnotlt : ¬ (cap = 0 ∨ q.length < cap) := by omega
  have hq : q ≠ [] := by
    intro h; rw [h] at hfull; simp at hfull; omega
  refine ⟨rfl, ?_, ?_, ?_, ?_⟩
  · unfold putIfNotFull
    rw [if_neg hnotlt]
  · unfold putIfNotFull
    rw [if_neg hnotlt, hfull]
  · unfold putEvictOldest
    rw [if_neg hnotlt]
    match q, hq with
    | b :: t, _ => simp
  · unfold putEvictOldest
    rw [if_neg hnotlt]
    match q, hq with
    | b :: t, _ =>
      simp at hfull ⊢
      omega

/-- Witness for C5 at capacity 3 and queue `[10, 11, 12]`. -/
theorem c5_queue_bounded_witness :
    queueMaxDefault = 20000 ∧
    putIfNotFull 3 [10, 11, 12] 99 = [10, 11, 12] ∧
    (putIfNotFull 3 [10, 11, 12] 99).length = 3 ∧
    putEvictOldest 3 [10, 11, 12] 99 = [10, 11, 12].drop 1 ++ [99] ∧
    (putEvictOldest 3 [10, 11, 12] 99).length = 3 :=
  c5_queue_bounded 3 [10, 11, 12] 99 (by decide) (by decide)

/-! ### Claim C8 -/

/-- Claim C8: calling `start()` while the collector is already running
is a no-op — no exception, no second serial open, no second reader
thread, state unchanged. -/
theorem c8_start_idempotent (openOk : Bool) (s : CollectorState)
    (h : runningC s = true) :
    startC openOk s = ⟨s, false⟩ ∧
    (startC openOk s).state.openCount = s.openCount ∧
    (startC openOk s).state.threadCount = s.threadCount := by
  unfold startC
  rw [if_pos h]
  exact ⟨rfl, rfl, rfl⟩

/-- Witness for C8 on a concrete running collector. -/
theorem c8_start_idempotent_witness :
    startC true (startC true initCollector).state = ⟨(startC true initCollector).state, false⟩ ∧
    (startC true (startC true initCollector).state).state.openCount
      = (startC true initCollector).state.openCount ∧
    (startC true (startC true initCollector).state).state.threadCount
      = (startC true initCollector).state.threadCount :=
  c8_start_idempotent true (startC true initCollector).state (by decide)

/-! ### Claim C10 -/

/-- Counterexample to claim C10 as stated: on a collector on which
`start()` was never called, `stop()` does not leave the state unchanged
— it sets the internal stop event. -/
theorem c10_stop_counterexample : stopC initCollector ≠ initCollector := by
  decide

/-- Claim C10 (amended): `stop()` on a collector on which `start()` was
never called returns normally (the model is total: every guard in the
method is a plain attribute test), joins no thread, closes no serial
resource, and changes nothing except setting the internal stop event;
in particular `running()` is still `false`. -/
theorem c10_stop_before_start (s : CollectorState)
    (hthread : s.hasThread = false) (hser : s.hasSer = false) :
    stopC s = { s with stopEventSet := true } ∧
    (stopC s).closeCount = s.closeCount ∧
    runningC (stopC s) = runningC s := by
  unfold stopC runningC
  simp [hser, hthread]

/-- Witness for C10 at the freshly initialized collector. -/
theorem c10_stop_before_start_witness :
    stopC initCollector = { initCollector with stopEventSet := true } ∧
    (stopC initCollector).closeCount = initCollector.closeCount ∧
    runningC (stopC initCollector) = runningC initCollector :=
  c10_stop_before_start initCollector (by decide) (by decide)

theorem encodeU32_length (n : Nat) : (encodeU32 n).length = 4 := rfl

theorem readU32_append_right (l r : List Nat) (i : Nat) :
    readU32 (l ++ r) (l.length + i) = readU32 r i := by
  rw [← readU32_drop (l ++ r) l.length i, List.drop_left]

theorem readU32_encodeU32 (n : Nat) (r : List Nat) (h : n < 4294967296) :
    readU32 (encodeU32 n ++ r) 0 = some n := by
  rw [readU32_append_left _ _ _ (by simp [encodeU32])]
  simp only [readU32, encodeU32]
  norm_num [List.getElem?_cons]
  omega

theorem u32_encodeU32 (n : Nat) (r : List Nat) (h : n < 4294967296) :
    u32 (encodeU32 n ++ r) 0 = n := by
  unfold u32
  rw [readU32_encodeU32 n r h]
  rfl

theorem encodeTLV_length (t : TLVRec) : (encodeTLV t).length = 8 + t.payload.length := by
  simp [encodeTLV, encodeU32]
  omega

/-- Core lemma for claim C6: starting anywhere in the frame, if the
bytes from `offset` on are a run of complete TLV records followed by a
truncating tail, and the TLV counter allows running into the tail, the
decoder's loop returns exactly the fold of its per-record action over
the complete records. -/
theorem parseTLVs_encoded (data : List Nat) (nd : Nat) (junk : List Nat)
    (hjunk : TruncatedTail junk) :
    ∀ (ts : List TLVRec) (k offset : Nat)
      (pts : List (Nat × Nat × Nat × Nat)) (si : List Int),
      data.drop offset = encodeTLVs ts ++ junk →
      ts.length < k →
      (∀ t ∈ ts, TLVEncodable t) →
      parseTLVs data nd k offset pts si = ts.foldl (tlvStep nd) (pts, si) := by
  intro ts
  induction ts with
  | nil =>
    intro k offset pts si hdrop hk _
    obtain ⟨k1, rfl⟩ : ∃ k1, k = k1 + 1 := ⟨k - 1, by omega⟩
    have hlen : data.length - offset = junk.length := by
      have := congrArg List.length hdrop
      simpa [encodeTLVs] using this
    unfold parseTLVs
    by_cases hshort : data.length < offset + TLV_HEADER_SIZE
    · rw [if_pos hshort]
      rfl
    · rw [if_neg hshort]
      have hln : u32 data (offset + 4) = u32 junk 4 := by
        rw [← u32_drop data offset 4, hdrop]
        simp [encodeTLVs]
      have hg2 : data.length < offset + TLV_HEADER_SIZE + u32 data (offset + 4) := by
        rw [hln]
        simp only [TruncatedTail, TLV_HEADER_SIZE] at hjunk hshort ⊢
        omega
      rw [if_pos hg2]
      rfl
  | cons t ts ih =>
    intro k offset pts si hdrop hk henc
    obtain ⟨k1, rfl⟩ : ∃ k1, k = k1 + 1 := ⟨k - 1, by omega⟩
    have hencTLVs : encodeTLVs (t :: ts) = encodeTLV t ++ encodeTLVs ts := by
      simp [encodeTLVs]
    rw [hencTLVs, List.append_assoc] at hdrop
    have hlen : data.length - offset
        = 8 + t.payload.length + (encodeTLVs ts).length + junk.length := by
      have := congrArg List.length hdrop
      simp only [List.length_drop, List.length_append, encodeTLV_length] at this
      omega
    have henct : TLVEncodable t := henc t (by simp)
    have hty : u32 data offset = t.ty := by
      have h0 : u32 data (offset + 0) = t.ty := by
        rw [← u32_drop data offset 0, hdrop]
        unfold encodeTLV
        rw [List.append_assoc, List.append_assoc, u32_encodeU32 _ _ henct.1]
      simpa using h0
    have hln : u32 data (offset + 4) = t.payload.length := by
      rw [← u32_drop data offset 4, hdrop]
      unfold u32
      unfold encodeTLV
      rw [List.append_assoc, List.append_assoc,
        show (4 : Nat) = (encodeU32 t.ty).length + 0 by simp [encodeU32_length],
        readU32_append_right, readU32_encodeU32 _ _ henct.2]
      rfl
    have hdrop8 : data.drop (offset + TLV_HEADER_SIZE) = t.payload ++ (encodeTLVs ts ++ junk) := by
      have : data.drop (offset + TLV_HEADER_SIZE) = (data.drop offset).drop TLV_HEADER_SIZE := by
        rw [List.drop_drop]
      rw [this, hdrop]
      unfold encodeTLV
      rw [List.append_assoc]
      rw [List.drop_left' (by simp [encodeU32_length, TLV_HEADER_SIZE])]
    have hdropNext : data.drop (offset + TLV_HEADER_SIZE + t.payload.length)
        = encodeTLVs ts ++ junk := by
      have : data.drop (offset + TLV_HEADER_SIZE + t.payload.length)
          = (data.drop (offset + TLV_HEADER_SIZE)).drop t.payload.length := by
        rw [List.drop_drop]
      rw [this, hdrop8, List.drop_left]
    unfold parseTLVs
    have hg1 : ¬ (data.length < offset + TLV_HEADER_SIZE) := by
      simp only [TLV_HEADER_SIZE]
      omega
    rw [if_neg hg1]
    simp only [hty, hln]
    have hg2 : ¬ (data.length < offset + TLV_HEADER_SIZE + t.payload.length) := by
      simp only [TLV_HEADER_SIZE] at hlen ⊢
      omega
    rw [if_neg hg2]
    have htd : (data.drop (offset + TLV_HEADER_SIZE)).take t.payload.length = t.payload := by
      rw [hdrop8, List.take_left' rfl]
    rw [htd]
    have hrec : ∀ pts1 si1, parseTLVs data nd k1 (offset + TLV_HEADER_SIZE + t.payload.length) pts1 si1
        = ts.foldl (tlvStep nd) (pts1, si1) := by
      intro pts1 si1
      exact ih k1 _ pts1 si1 hdropNext (by simpa using hk) (fun u hu => henc u (by simp [hu]))
    by_cases ht1 : t.ty = 1
    · rw [if_pos ht1, hrec]
      simp [tlvStep, ht1]
    · rw [if_neg ht1]
      by_cases ht7 : t.ty = 7
      · rw [if_pos ht7, hrec]
        simp [tlvStep, ht1, ht7]
      · rw [if_neg ht7, hrec]
        simp [tlvStep, ht1, ht7]

/-! ### Claim C6 -/

/-- Claim C6: whenever a TLV header or payload would extend past the end
of the frame, `_parse_packet` stops iterating TLVs there and returns
exactly the detections decoded from the earlier, complete TLV records
of the same frame; once the fixed header is readable (36 bytes) it
never raises, and a malformed TLV never discards the whole frame's
result. -/
theorem c6_tlv_truncation :
    (∀ (data : List Nat) (hl : Nat), 36 ≤ data.length →
      parsePacketNew data hl = Except.ok (parsePacketCore data hl)) ∧
    (∀ (pre : List Nat) (ts : List TLVRec) (junk : List Nat) (nd nt : Nat),
      36 ≤ pre.length →
      readU32 (pre ++ (encodeTLVs ts ++ junk)) 28 = some nd →
      readU32 (pre ++ (encodeTLVs ts ++ junk)) 32 = some nt →
      ts.length < nt →
      (∀ t ∈ ts, TLVEncodable t) →
      TruncatedTail junk →
      parsePacketNew (pre ++ (encodeTLVs ts ++ junk)) pre.length =
        Except.ok (assemble (decodeTLVRecs nd ts).1 (decodeTLVRecs nd ts).2)) := by
  constructor
  · intro data hl h
    unfold parsePacketNew
    rw [if_neg (show ¬ (data.length < 36) by omega)]
  · intro pre ts junk nd nt hpre hnd hnt hcount henc hjunk
    have hdlen : 36 ≤ (pre ++ (encodeTLVs ts ++ junk)).length := by
      simp only [List.length_append]
      omega
    unfold parsePacketNew
    rw [if_neg (show ¬ ((pre ++ (encodeTLVs ts ++ junk)).length < 36) by omega)]
    unfold parsePacketCore
    have hund : u32 (pre ++ (encodeTLVs ts ++ junk)) 28 = nd := by
      unfold u32; rw [hnd]; rfl
    have hunt : u32 (pre ++ (encodeTLVs ts ++ junk)) 32 = nt := by
      unfold u32; rw [hnt]; rfl
    rw [hund, hunt]
    rw [parseTLVs_encoded (pre ++ (encodeTLVs ts ++ junk)) nd junk hjunk ts nt pre.length [] []
      (by rw [List.drop_left]) hcount henc]
    rfl

/-- Witness for C6 at a concrete frame whose second TLV is truncated. -/
theorem c6_tlv_truncation_witness :
    TruncatedTail c6junk ∧ (1 : Nat) < 2 ∧
    parsePacketNew (c6pre ++ (encodeTLVs c6ts ++ c6junk)) c6pre.length =
      Except.ok (assemble (decodeTLVRecs 1 c6ts).1 (decodeTLVRecs 1 c6ts).2) :=
  ⟨by decide, by decide,
    c6_tlv_truncation.2 c6pre c6ts c6junk 1 2 (by decide) (by decide) (by decide)
      (by decide) (by decide) (by decide)⟩

/-- One-step unfolding of the loop at positive fuel. -/
theorem processBufferOldGo_succ (fuel : Nat) (buf : List Nat) :
    processBufferOldGo (fuel + 1) buf =
      match findMagic buf with
      | none => (if 2048 < buf.length then buf.drop (buf.length - 16) else buf, [])
      | some idx =>
        if (buf.drop idx).length < 40 then (buf.drop idx, [])
        else if u32 (buf.drop idx) 12 = 0 ∨ 65536 < u32 (buf.drop idx) 12 then
          processBufferOldGo fuel ((buf.drop idx).drop 8)
        else if (buf.drop idx).length < u32 (buf.drop idx) 12 then (buf.drop idx, [])
        else
          ((processBufferOldGo fuel ((buf.drop idx).drop (u32 (buf.drop idx) 12))).1,
            (buf.drop idx).take (u32 (buf.drop idx) 12) ::
              (processBufferOldGo fuel ((buf.drop idx).drop (u32 (buf.drop idx) 12))).2) := rfl

/-- Sufficient fuel is irrelevant: the loop never runs more than
`length` steps. -/
theorem processBufferOldGo_fuel (f1 : Nat) :
    ∀ (f2 : Nat) (buf : List Nat), buf.length < f1 → buf.length < f2 →
      processBufferOldGo f1 buf = processBufferOldGo f2 buf := by
  induction f1 with
  | zero =>
    intro f2 buf h1 _
    omega
  | succ g1 ih =>
    intro f2 buf h1 h2
    obtain ⟨g2, rfl⟩ : ∃ g2, f2 = g2 + 1 := ⟨f2 - 1, by omega⟩
    unfold processBufferOldGo
    cases hfm : findMagic buf with
    | none => rfl
    | some idx =>
      dsimp only
      have hblen : (buf.drop idx).length = buf.length - idx := List.length_drop idx buf
      by_cases h40 : (buf.drop idx).length < 40
      · rw [if_pos h40, if_pos h40]
      · rw [if_neg h40, if_neg h40]
        by_cases hbad : u32 (buf.drop idx) 12 = 0 ∨ 65536 < u32 (buf.drop idx) 12
        · rw [if_pos hbad, if_pos hbad]
          exact ih g2 ((buf.drop idx).drop 8) (by simp [hblen]; omega) (by simp [hblen]; omega)
        · rw [if_neg hbad, if_neg hbad]
          by_cases hwait : (buf.drop idx).length < u32 (buf.drop idx) 12
          · rw [if_pos hwait, if_pos hwait]
          · rw [if_neg hwait, if_neg hwait]
            have htpos : 1 ≤ u32 (buf.drop idx) 12 := by omega
            rw [ih g2 ((buf.drop idx).drop (u32 (buf.drop idx) 12))
              (by simp [hblen]; omega) (by simp [hblen]; omega)]

/-- With no marker in the buffer, the loop only applies the 2 KiB noise
trim. -/
theorem processOld_noMarker (buf : List Nat) (h : findMagic buf = none) :
    processBufferOld buf =
      (if 2048 < buf.length then buf.drop (buf.length - 16) else buf, []) := by
  unfold processBufferOld processBufferOldGo
  rw [h]

/-- A marker whose total-length field is 0 or beyond 64 KiB is dropped
(8 bytes) and scanning continues — one full loop identity. -/
theorem processOld_reject (buf : List Nat) (idx : Nat)
    (hfm : findMagic buf = some idx) (h40 : 40 ≤ (buf.drop idx).length)
    (hbad : u32 (buf.drop idx) 12 = 0 ∨ 65536 < u32 (buf.drop idx) 12) :
    processBufferOld buf = processBufferOld ((buf.drop idx).drop 8) := by
  have hblen : (buf.drop idx).length = buf.length - idx := List.length_drop idx buf
  have hXlen : ((buf.drop idx).drop 8).length < buf.length := by
    simp only [List.length_drop] at h40 ⊢
    omega
  have hstep : processBufferOldGo (buf.length + 1) buf
      = processBufferOldGo buf.length ((buf.drop idx).drop 8) := by
    rw [processBufferOldGo_succ, hfm]
    dsimp only
    rw [if_neg (not_lt.mpr h40), if_pos hbad]
  unfold processBufferOld
  rw [hstep,
    processBufferOldGo_fuel buf.length (((buf.drop idx).drop 8).length + 1)
      ((buf.drop idx).drop 8) hXlen (by omega)]

/-- Extracting one valid frame sitting after noise: the noise and the
frame are consumed, the frame is emitted, and the loop continues on the
rest. -/
theorem processOld_extract (n f R : List Nat)
    (hfm : findMagic (n ++ (f ++ R)) = some n.length)
    (hv : ValidFrameOld f) :
    processBufferOld (n ++ (f ++ R)) =
      ((processBufferOld R).1, f :: (processBufferOld R).2) := by
  obtain ⟨hm, ht, hl, hu⟩ := hv
  have hdrop : (n ++ (f ++ R)).drop n.length = f ++ R := List.drop_left n (f ++ R)
  have hu32 : u32 (f ++ R) 12 = f.length := by
    unfold u32
    rw [readU32_append_left f R 12 (by omega), ht]
    rfl
  have hlenfr : (f ++ R).length = f.length + R.length := List.length_append f R
  have hRlt : R.length < (n ++ (f ++ R)).length := by
    simp only [List.length_append]
    omega
  have hstep : processBufferOldGo ((n ++ (f ++ R)).length + 1) (n ++ (f ++ R))
      = ((processBufferOldGo (n ++ (f ++ R)).length R).1,
          f :: (processBufferOldGo (n ++ (f ++ R)).length R).2) := by
    rw [processBufferOldGo_succ, hfm]
    dsimp only
    rw [hdrop, hu32]
    rw [if_neg (show ¬ ((f ++ R).length < 40) by omega)]
    rw [if_neg (show ¬ (f.length = 0 ∨ 65536 < f.length) by omega)]
    rw [if_neg (show ¬ ((f ++ R).length < f.length) by omega)]
    rw [List.take_left, List.drop_left]
  unfold processBufferOld
  rw [hstep,
    processBufferOldGo_fuel (n ++ (f ++ R)).length (R.length + 1) R hRlt (by omega)]

/-- Counterexample to claim C1 as stated: with a declared total length
of 20 — nonzero but at most the header length 40 — the sync stage does
not reject the frame by dropping the marker; it extracts a 20-byte
packet (which therefore contains the marker and 12 further bytes)
instead of rescanning past the marker alone. -/
theorem c1_counterexample :
    u32 c1cbuf 8 = 40 ∧ u32 c1cbuf 12 = 20 ∧ (20 : Nat) ≤ 40 ∧
    (processBufferOld c1cbuf).2 = [c1cbuf.take 20] ∧
    processBufferOld c1cbuf ≠ processBufferOld (c1cbuf.drop 8) := by
  refine ⟨by decide, by decide, by decide, by decide, by decide⟩

/-- Claim C1 (amended): when a marker is found and the 40-byte minimum
header is buffered, a declared total packet length that is zero (the
unsigned reading of `<= 0`) or exceeds 64 KiB makes the sync stage
reject that frame by dropping just the 8-byte marker occurrence and
continuing the scan — processing the whole buffer equals processing it
with that marker occurrence removed, so a corrupted length field never
stalls the pipeline.  (The claim's `total ≤ header length` condition is
refuted by `c1_counterexample`; the code's guard is `total = 0`.) -/
theorem c1_reject_implausible_length (buf : List Nat) (idx : Nat)
    (hfm : findMagic buf = some idx) (h40 : 40 ≤ (buf.drop idx).length)
    (hbad : u32 (buf.drop idx) 12 = 0 ∨ 65536 < u32 (buf.drop idx) 12) :
    processBufferOld buf = processBufferOld ((buf.drop idx).drop 8) :=
  processOld_reject buf idx hfm h40 hbad

/-- Witness for C1 at a concrete buffer with a zero length field. -/
theorem c1_reject_implausible_length_witness :
    findMagic c1wbuf = some 0 ∧ u32 (c1wbuf.drop 0) 12 = 0 ∧
    processBufferOld c1wbuf = processBufferOld ((c1wbuf.drop 0).drop 8) :=
  ⟨by decide, by decide,
    c1_reject_implausible_length c1wbuf 0 (by decide) (by decide) (Or.inl (by decide))⟩

/-! ### Claim C2 -/

/-- Invariant run for C2: starting from a buffer within the cap,
consuming any chunks whose bytes (together with the buffer) never
contain the marker keeps the buffer within the 2 KiB cap. -/
theorem runChunksOld_noMarker_bound :
    ∀ (cs : List (List Nat)) (buf : List Nat), buf.length ≤ 2048 →
      findMagic (buf ++ cs.flatten) = none →
      ((runChunksOld cs buf).1).length ≤ 2048 := by
  intro cs
  induction cs with
  | nil =>
    intro buf hb _
    exact hb
  | cons c cs ih =>
    intro buf hb hnm
    rw [List.flatten_cons] at hnm
    have hmc : findMagic (buf ++ c) = none := by
      apply findMagic_none_within _ _ ?_ hnm
      exact ⟨[], cs.flatten, by simp⟩
    have hstep : (runChunksOld (c :: cs) buf).1
        = (runChunksOld cs (processBufferOld (buf ++ c)).1).1 := rfl
    rw [hstep]
    have hb1 : ((processBufferOld (buf ++ c)).1).length ≤ 2048 := by
      rw [processOld_noMarker (buf ++ c) hmc]
      dsimp only
      split_ifs with hbig
      · simp only [List.length_drop]
        omega
      · omega
    have hsfx : (processBufferOld (buf ++ c)).1 <:+ buf ++ c := by
      rw [processOld_noMarker (buf ++ c) hmc]
      dsimp only
      split_ifs with hbig
      · exact List.drop_suffix _ _
      · exact List.suffix_refl _
    have hnext : findMagic ((processBufferOld (buf ++ c)).1 ++ cs.flatten) = none := by
      obtain ⟨s, hs⟩ := hsfx
      apply findMagic_none_within _ _ ?_ hnm
      exact ⟨s, [], by rw [List.append_nil, ← List.append_assoc, hs, List.append_assoc]⟩
    exact ih (processBufferOld (buf ++ c)).1 hb1 hnext

/-- Claim C2: under marker-free input the raw buffer stays bounded —
after consuming any sequence of chunks containing no sync marker the
buffer holds at most the 2 KiB cap; and whenever a marker-free buffer
exceeds the cap, one processing pass truncates it to exactly its last
`2 * len(MAGIC_WORD) = 16` bytes, a tail long enough to keep any
partial marker (at most 7 bytes) split across chunk boundaries. -/
theorem c2_buffer_bounded (chunks : List (List Nat))
    (hnm : findMagic chunks.flatten = none) :
    ((runChunksOld chunks []).1).length ≤ 2048 ∧
    ∀ buf : List Nat, findMagic buf = none → 2048 < buf.length →
      (processBufferOld buf).1 = buf.drop (buf.length - 16) ∧
      ((processBufferOld buf).1).length = 2 * MAGIC_WORD.length ∧
      MAGIC_WORD.length - 1 ≤ ((processBufferOld buf).1).length := by
  constructor
  · exact runChunksOld_noMarker_bound chunks [] (by simp) (by simpa using hnm)
  · intro buf hm hbig
    rw [processOld_noMarker buf hm]
    dsimp only
    rw [if_pos hbig]
    refine ⟨rfl, ?_, ?_⟩
    · simp only [List.length_drop, MAGIC_WORD, List.length_cons, List.length_nil]
      omega
    · simp only [List.length_drop, MAGIC_WORD, List.length_cons, List.length_nil]
      omega

/-- Constant noise made of a byte other than the marker's first byte
never contains the marker. -/
theorem findMagic_replicate_none (n a : Nat) (ha : a ≠ 2) :
    findMagic (List.replicate n a) = none := by
  rw [findMagic_none_iff]
  intro i hc
  obtain ⟨t, ht⟩ := hc
  have h0 := congrArg (fun l => l[0]?) ht
  simp only [MAGIC_WORD, List.cons_append, List.getElem?_cons_zero] at h0
  rw [List.getElem?_drop, List.getElem?_replicate] at h0
  by_cases hlt : i + 0 < n
  · rw [if_pos hlt] at h0
    exact ha (by simpa using h0.symm)
  · rw [if_neg hlt] at h0
    simp at h0

/-- Witness for C2 at concrete noise. -/
theorem c2_buffer_bounded_witness :
    ((runChunksOld c2chunks []).1).length ≤ 2048 ∧
    ((processBufferOld c2big).1 = c2big.drop (c2big.length - 16) ∧
      ((processBufferOld c2big).1).length = 2 * MAGIC_WORD.length ∧
      MAGIC_WORD.length - 1 ≤ ((processBufferOld c2big).1).length) :=
  by
  have hflat : findMagic c2chunks.flatten = none := by
    rw [show c2chunks.flatten = List.replicate 2100 9 from by
      rw [show c2chunks = [List.replicate 2100 9] from rfl, List.flatten_cons,
        List.flatten_nil, List.append_nil]]
    exact findMagic_replicate_none 2100 9 (by decide)
  have hbig : 2048 < c2big.length := by
    rw [show c2big = List.replicate 2100 7 from rfl, List.length_replicate]
    omega
  exact ⟨(c2_buffer_bounded c2chunks hflat).1,
    (c2_buffer_bounded c2chunks hflat).2 c2big
      (findMagic_replicate_none 2100 7 (by decide)) hbig⟩

/-- Counterexample to claim C3 as stated: one valid frame preceded by
arbitrary noise (which happens to contain a marker and a plausible
length field) is not recovered — the sync stage emits a single 48-byte
packet overlapping noise and frame instead of the frame itself. -/
theorem c3_counterexample :
    ValidFrameOld c3frame ∧
    (processBufferOld (c3noise ++ c3frame)).2 ≠ [c3frame] := by
  refine ⟨⟨by decide, by decide, by decide, by decide⟩, by decide⟩

/-- Claim C3 (amended): for a stream of `k` valid frames interleaved
with noise in which the sync marker occurs only at the starts of the
frames (`CleanStream`; refuted for arbitrary noise by
`c3_counterexample`), the sync stage extracts exactly the `k` frames,
each byte-for-byte equal to the corresponding frame of the stream. -/
theorem c3_frames_recovered (ps : List (List Nat × List Nat)) (tail : List Nat)
    (hv : ∀ p ∈ ps, ValidFrameOld p.2) (hc : CleanStream ps tail) :
    (processBufferOld (interleave ps tail)).2 = ps.map Prod.snd := by
  induction ps with
  | nil =>
    rw [show interleave [] tail = tail from rfl, processOld_noMarker tail hc]
    rfl
  | cons p ps ih =>
    obtain ⟨hc1, hc2⟩ := hc
    rw [show interleave (p :: ps) tail = p.1 ++ (p.2 ++ interleave ps tail) from rfl]
    rw [processOld_extract p.1 p.2 (interleave ps tail) hc1 (hv p (by simp))]
    dsimp only
    rw [ih (fun q hq => hv q (by simp [hq])) hc2]
    simp

/-- Witness for C3 on a concrete two-frame stream. -/
theorem c3_frames_recovered_witness :
    (∀ p ∈ c3ps, ValidFrameOld p.2) ∧ CleanStream c3ps c3tail ∧
    (processBufferOld (interleave c3ps c3tail)).2 = c3ps.map Prod.snd :=
  ⟨by decide, ⟨by decide, by decide, show findMagic c3tail = none by decide⟩,
    c3_frames_recovered c3ps c3tail (by decide)
      ⟨by decide, by decide, show findMagic c3tail = none by decide⟩⟩

/-! ### Lemmas for claim C7 -/

theorem processBufferNewGo_nil (fuel : Nat) : processBufferNewGo fuel [] = ([], []) := by
  cases fuel <;> rfl

theorem processBufferNew_nil : processBufferNew [] = ([], []) :=
  processBufferNewGo_nil 1

/-- On a strict prefix of a valid frame, `_process_buffer` of
`collecter.py` consumes nothing and decodes nothing: it waits for more
bytes. -/
theorem processNew_partial_frame (f p : List Nat) (hv : ValidFrameNew f)
    (hp : p <+: f) (hne : p ≠ f) :
    processBufferNew p = (p, []) := by
  obtain ⟨hm, ht, hl⟩ := hv
  have hplt : p.length < f.length := by
    rcases Nat.lt_or_ge p.length f.length with h | h
    · exact h
    · exact absurd (hp.eq_of_length (Nat.le_antisymm hp.length_le h)) hne
  unfold processBufferNew processBufferNewGo
  by_cases hshort : p.length < 8
  · rw [findMagic_none_of_short p hshort]
  · push_neg at hshort
    have hmp : MAGIC_WORD <+: p :=
      List.prefix_of_prefix_length_le hm hp (by simpa [MAGIC_WORD] using hshort)
    rw [findMagic_marker_start p hmp]
    simp only [List.drop_zero]
    by_cases h12 : p.length < 12
    · rw [readU32_eq_none p 8 (by omega)]
    · by_cases h16 : p.length < 16
      · rw [readU32_eq_none p 12 (by omega), readU32_eq_some p 8 (by omega)]
      · rw [readU32_eq_some p 8 (by omega), readU32_prefix_agree p f 12 hp (by omega), ht]
        dsimp only
        rw [if_pos hplt]

/-- Feeding exactly one whole valid frame: the buffer empties and the
frame's decoded detections come out. -/
theorem processNew_whole_frame (f : List Nat) (hv : ValidFrameNew f) :
    processBufferNew f = ([], parsePacketCore f (u32 f 8)) := by
  obtain ⟨hm, ht, hl⟩ := hv
  unfold processBufferNew processBufferNewGo
  rw [findMagic_marker_start f hm]
  simp only [List.drop_zero]
  rw [readU32_eq_some f 8 (by omega), ht]
  dsimp only
  rw [if_neg (lt_irrefl f.length), List.take_length]
  have hok : parsePacketNew f (u32 f 8) = Except.ok (parsePacketCore f (u32 f 8)) := by
    unfold parsePacketNew
    rw [if_neg (show ¬ (f.length < 36) by omega)]
  rw [hok, List.drop_length, processBufferNewGo_nil]
  simp

theorem runChunksNew_all_nil (cs : List (List Nat)) (h : cs.flatten = []) :
    runChunksNew cs [] = ([], []) := by
  induction cs with
  | nil => rfl
  | cons c cs ih =>
    rw [List.flatten_cons, List.append_eq_nil] at h
    simp only [runChunksNew, h.1, List.append_nil, processBufferNew_nil]
    rw [ih h.2]
    rfl

/-- Invariant run for C7: with the bytes so far forming a strict prefix
of the valid frame, consuming the rest of the chunks produces exactly
the whole frame's detections and an empty buffer. -/
theorem runChunksNew_prefix_run (f : List Nat) (hv : ValidFrameNew f) :
    ∀ (cs : List (List Nat)) (p : List Nat), p ++ cs.flatten = f → p ≠ f →
      runChunksNew cs p = ([], parsePacketCore f (u32 f 8)) := by
  intro cs
  induction cs with
  | nil =>
    intro p hflat hne
    rw [List.flatten_nil, List.append_nil] at hflat
    exact absurd hflat hne
  | cons c cs ih =>
    intro p hflat hne
    rw [List.flatten_cons, ← List.append_assoc] at hflat
    simp only [runChunksNew]
    by_cases heq : p ++ c = f
    · rw [heq, processNew_whole_frame f hv]
      have hnil : cs.flatten = [] := by
        rw [heq] at hflat
        have := congrArg List.length hflat
        simp only [List.length_append] at this
        exact List.length_eq_zero.mp (by omega)
      rw [runChunksNew_all_nil cs hnil]
      simp
    · rw [processNew_partial_frame f (p ++ c) hv ⟨cs.flatten, hflat⟩ heq]
      exact ih (p ++ c) hflat heq

/-! ### Claim C7 -/

/-- Claim C7: for a valid frame, feeding its bytes across any split
into successive chunks (running `_process_buffer` after each chunk, as
`_read_loop` does) produces exactly the same detections as feeding the
whole frame in one chunk. -/
theorem c7_chunk_invariance (f : List Nat) (chunks : List (List Nat))
    (hv : ValidFrameNew f) (hs : chunks.flatten = f) :
    runChunksNew chunks [] = runChunksNew [f] [] := by
  have hne : ([] : List Nat) ≠ f := by
    intro h
    rw [← h] at hv
    simpa [MAGIC_WORD] using hv.2.2
  have h1 : runChunksNew chunks [] = ([], parsePacketCore f (u32 f 8)) :=
    runChunksNew_prefix_run f hv chunks [] (by simpa using hs) hne
  have h2 : runChunksNew [f] [] = ([], parsePacketCore f (u32 f 8)) := by
    simp only [runChunksNew, List.nil_append]
    rw [processNew_whole_frame f hv]
    simp
  rw [h1, h2]

/-- Witness for C7: the frame split after 10 bytes equals the frame fed
whole. -/
theorem c7_chunk_invariance_witness :
    ValidFrameNew c7frame ∧
    runChunksNew [c7frame.take 10, c7frame.drop 10] [] = runChunksNew [c7frame] [] :=
  ⟨by constructor
      · decide
      · constructor
        · decide
        · decide,
    c7_chunk_invariance c7frame [c7frame.take 10, c7frame.drop 10]
      ⟨by decide, by decide, by decide⟩ (by simp)⟩

/-- Justification for the square-compare encoding used in
`isHumanCluster`: for a nonnegative radicand, `sqrt s > w` is exactly
`w < 0 ∨ w² < s`. -/
theorem sqrt_gt_iff_of_nonneg (s w : ℝ) :
    w < Real.sqrt s ↔ (w < 0 ∨ w ^ 2 < s) := by
  by_cases hw : w < 0
  · constructor
    · intro _; exact Or.inl hw
    · intro _; exact lt_of_lt_of_le hw (Real.sqrt_nonneg s)
  · push_neg at hw
    rw [Real.lt_sqrt hw]
    constructor
    · intro h; exact Or.inr h
    · rintro (h | h)
      · exact absurd h (not_lt.mpr hw)
      · exact h

theorem labelOf_eq_human_iff (p : DetectorParams) (c : List DetPoint) :
    labelOf p c = Label.Human ↔ isHumanCluster p c = true := by
  unfold labelOf
  cases h : isHumanCluster p c
  · simp only [h, Bool.false_eq_true, if_false]
    constructor
    · intro hh
      split at hh <;> exact absurd hh (by simp)
    · intro hh; exact absurd hh (by simp)
  · simp [h]

theorem labelOf_of_ne_human (p : DetectorParams) (c : List DetPoint)
    (h : labelOf p c ≠ Label.Human) :
    labelOf p c = if p.movementThreshold < avgAbsVel c then Label.Moving else Label.Static := by
  unfold labelOf at h ⊢
  cases hh : isHumanCluster p c
  · simp [hh]
  · simp [hh] at h

theorem isHumanCluster_eq_true_iff (p : DetectorParams) (c : List DetPoint)
    (hw : 0 ≤ p.maxHumanWidth) :
    isHumanCluster p c = true ↔
      (p.minPointsHuman ≤ c.length ∧ p.minHumanHeight < heightOf c ∧
       heightOf c < p.maxHumanHeight ∧ spreadSq c ≤ p.maxHumanWidth ^ 2) := by
  unfold isHumanCluster
  by_cases h1 : c.length < p.minPointsHuman
  · rw [if_pos h1]
    simp only [Bool.false_eq_true, false_iff]
    rintro ⟨ha, -, -, -⟩; omega
  · rw [if_neg h1]
    by_cases h2 : p.minHumanHeight < heightOf c ∧ heightOf c < p.maxHumanHeight
    · rw [if_neg (not_not.mpr h2)]
      by_cases h3 : p.maxHumanWidth < 0 ∨ p.maxHumanWidth ^ 2 < spreadSq c
      · rw [if_pos h3]
        simp only [Bool.false_eq_true, false_iff]
        rintro ⟨-, -, -, hd⟩
        rcases h3 with h | h
        · linarith
        · linarith
      · rw [if_neg h3]
        constructor
        · intro _
          exact ⟨by omega, h2.1, h2.2, not_lt.mp (not_or.mp h3).2⟩
        · intro _; rfl
    · rw [if_pos h2]
      simp only [Bool.false_eq_true, false_iff]
      rintro ⟨-, hb, hc', -⟩; exact h2 ⟨hb, hc'⟩

/-! ### Claim C4 -/

/-- Claim C4: in `Classifier.process`, a non-noise row's cluster is
labeled Human iff all three of the size, strict height-window and
horizontal-spread conditions hold (the spread condition stated squared,
equivalent to `sqrt(wx² + wy²) ≤ max_human_width` for the nonnegative
width bound assumed here); every non-Human non-noise cluster is labeled
Moving when the mean absolute velocity of its members exceeds the
movement threshold and Static otherwise. -/
theorem c4_process_labeling (p : DetectorParams) (batch : List (DetPoint × Int))
    (i : Nat) (pt : DetPoint × Int) (hip : batch[i]? = some pt) (hcid : pt.2 ≠ -1)
    (hw : 0 ≤ p.maxHumanWidth) :
    ((processLabels p batch)[i]? = some Label.Human ↔
      (p.minPointsHuman ≤ (clusterMembers batch pt.2).length ∧
       p.minHumanHeight < heightOf (clusterMembers batch pt.2) ∧
       heightOf (clusterMembers batch pt.2) < p.maxHumanHeight ∧
       spreadSq (clusterMembers batch pt.2) ≤ p.maxHumanWidth ^ 2)) ∧
    ((processLabels p batch)[i]? ≠ some Label.Human →
      (processLabels p batch)[i]? =
        some (if p.movementThreshold < avgAbsVel (clusterMembers batch pt.2)
              then Label.Moving else Label.Static)) := by
  have hmap : (processLabels p batch)[i]? = some (labelOf p (clusterMembers batch pt.2)) := by
    unfold processLabels
    rw [List.getElem?_map, hip]
    simp [hcid]
  rw [hmap]
  constructor
  · rw [Option.some_inj, labelOf_eq_human_iff,
      isHumanCluster_eq_true_iff p (clusterMembers batch pt.2) hw]
  · intro hne
    rw [Option.some_inj]
    exact labelOf_of_ne_human p (clusterMembers batch pt.2) (fun hh => hne (by rw [hh]))

/-- Witness for C4 at a concrete batch, row 0, cluster 0. -/
theorem c4_process_labeling_witness :
    ((processLabels c4params c4batch)[0]? = some Label.Human ↔
      (c4params.minPointsHuman ≤ (clusterMembers c4batch 0).length ∧
       c4params.minHumanHeight < heightOf (clusterMembers c4batch 0) ∧
       heightOf (clusterMembers c4batch 0) < c4params.maxHumanHeight ∧
       spreadSq (clusterMembers c4batch 0) ≤ c4params.maxHumanWidth ^ 2)) ∧
    ((processLabels c4params c4batch)[0]? ≠ some Label.Human →
      (processLabels c4params c4batch)[0]? =
        some (if c4params.movementThreshold < avgAbsVel (clusterMembers c4batch 0)
              then Label.Moving else Label.Static)) :=
  c4_process_labeling c4params c4batch 0 (⟨0, 0, 0, 0⟩, 0) rfl (by decide) (by norm_num [c4params])

end MMW
